import Mathlib

/-!
# GenMusicAI — verification of the core logic of `src/utils.py`

Shallow embedding of the pure core of the script: the parameter validator
(`validate_audio_effects`), the response parser (`parse_gemini_response`),
the filter-chain builder (the body of `apply_suggested_modifications`), and
the failure-propagation behaviour of `analyze_audio_and_send_to_gemini`.

Python JSON numbers are modelled as rationals (`Rat`).  All comparisons done
by the script on these values (clamping via `max`/`min`) are exact, so `Rat`
is a faithful model for them.  String rendering of a numeric value (Python
f-string interpolation) is modelled exactly for integral values, which is all
that any verified property relies on; Python's float `repr` for non-integral
values is out of scope.

Effect descriptors (Python dicts parsed from JSON) are modelled as
association lists, preserving insertion order, which is exactly what Python
dict iteration provides.  Lookup (`dict.get`, `in`, indexing) is first-match
lookup, which agrees with the dict semantics because JSON objects have
unique keys.
-/

namespace GenMusicAI

/-- Rendering of a numeric value interpolated into a Python f-string.
For integral values this is exactly Python's `str` (e.g. `3 ↦ "3"`,
`-12 ↦ "-12"`).  Non-integral values are rendered as `num/den`; no verified
property depends on that branch (Python would use float `repr` there). -/
def numStr (q : Rat) : String :=
  if q.den = 1 then toString q.num else toString q.num ++ "/" ++ toString q.den

/-- Python f-string rendering of the result of `dict.get`:
a missing key renders as `"None"`. -/
def optStr : Option Rat → String
  | some v => numStr v
  | none => "None"

/-- A parameter record: a JSON object mapping parameter names to numbers,
e.g. `{"frequency": 100, "gain": -12}`. -/
abbrev ParamRecord := List (String × Rat)

/-- An effect descriptor: a JSON object mapping effect names to ordered
sequences of parameter records. -/
abbrev Effects := List (String × List ParamRecord)

/-- The table `PARAM_LIMITS` from `src/utils.py` lines 14–19: the static per-effect,
per-parameter inclusive ranges. -/
def PARAM_LIMITS : List (String × List (String × (Rat × Rat))) :=
  [("EQ", [("frequency", (20, 20000)), ("gain", (-12, 12))]),
   ("Gain", [("gain_level", (-12, 12))]),
   ("Reverb", [("reverb_amount", (0, 20))]),
   ("Tempo", [("tempo_factor", (1/2, 2))])]

/-- The test `effect in PARAM_LIMITS` together with the access
`PARAM_LIMITS[effect]`. -/
def limitsFor (effect : String) : Option (List (String × (Rat × Rat))) :=
  PARAM_LIMITS.lookup effect

/-- The inner `clamp` of `validate_audio_effects`:
`max(min_val, min(value, max_val))`. -/
def clamp (value min_val max_val : Rat) : Rat :=
  max min_val (min value max_val)

/-- The function `validate_audio_effects` (`src/utils.py` lines 98–109): for every effect
whose name is a key of `PARAM_LIMITS`, every field of every parameter record
whose name is a key of that effect's limit table has its value clamped; all
other fields, records and effects are returned as they are.  The Python
function mutates the dict in place and returns it; the embedding is the
corresponding pure function. -/
def validate_audio_effects (effects : Effects) : Effects :=
  effects.map fun ep =>
    match limitsFor ep.1 with
    | some tbl =>
        (ep.1, ep.2.map fun pr =>
          pr.map fun kv =>
            match tbl.lookup kv.1 with
            | some lims => (kv.1, clamp kv.2 lims.1 lims.2)
            | none => kv)
    | none => ep

/-- Index of the first character satisfying `p` (the start position of the
match of `re.search`). -/
def firstIdx (p : Char → Bool) : List Char → Option Nat
  | [] => none
  | c :: cs => if p c then some 0 else (firstIdx p cs).map (· + 1)

/-- Index of the last character satisfying `p` (where the greedy `.*` of the
regex ends). -/
def lastIdx (p : Char → Bool) : List Char → Option Nat
  | [] => none
  | c :: cs =>
    match lastIdx p cs with
    | some j => some (j + 1)
    | none => if p c then some 0 else none

/-- The span matched by `re.search(r"\x7b.*\x7d", text, re.DOTALL)`:
the substring running from the first opening brace to the last closing
brace, provided the latter comes after the former; `none` when the regex
does not match. -/
def regexSpan (cs : List Char) : Option (List Char) :=
  match firstIdx (· = '{') cs, lastIdx (· = '}') cs with
  | some i, some j => if i < j then some ((cs.drop i).take (j + 1 - i)) else none
  | _, _ => none

/-- The function `parse_gemini_response` (`src/utils.py` lines 112–129) on the raw reply
text.  `json_loads` stands for the external `json.loads`, returning `none`
when it raises (the `except` clause returns `None`).  The attribute access
pulling the text out of the response object is outside the model; the parser
is a function of the raw text, as the specified contract states. -/
def parse_gemini_response {α : Type} (json_loads : List Char → Option α)
    (text : List Char) : Option α :=
  match regexSpan text with
  | some span => json_loads span
  | none => none

/-- The per-branch filter templates of `apply_suggested_modifications`
(`src/utils.py` lines 147–171): one expression per parameter record for the
four recognized effect names, nothing for any other name. -/
def effectFilters (effect : String) (params : List ParamRecord) : List String :=
  if effect = "EQ" then
    params.map fun p =>
      "equalizer=f=" ++ optStr (p.lookup "frequency") ++ ":t=q:w=1:g=" ++
        optStr (p.lookup "gain")
  else if effect = "Gain" then
    params.map fun p => "volume=" ++ optStr (p.lookup "gain_level") ++ "dB"
  else if effect = "Reverb" then
    params.map fun p => "aecho=1.0:0.5:" ++ optStr (p.lookup "reverb_amount") ++ ":0.5"
  else if effect = "Tempo" then
    params.map fun p => "atempo=" ++ optStr (p.lookup "tempo_factor")
  else []

/-- The list `ffmpeg_filters` accumulated by the loop of
`apply_suggested_modifications`: expressions in descriptor key order and,
within each effect, in record order. -/
def build_ffmpeg_filters (suggestions : Effects) : List String :=
  suggestions.flatMap fun ep => effectFilters ep.1 ep.2

/-- The joined chain `combined_filters = ",".join(ffmpeg_filters)`
(`src/utils.py` line 173). -/
def combined_filters (suggestions : Effects) : String :=
  String.intercalate "," (build_ffmpeg_filters suggestions)

/-- The effect names the filter-chain builder recognizes. -/
def recognizedEffect (e : String) : Bool :=
  e = "EQ" || e = "Gain" || e = "Reverb" || e = "Tempo"

/-- The single filter expression built from one parameter record of a
recognized effect (the body of the matching branch of the builder loop). -/
def recordExpr (effect : String) (p : ParamRecord) : String :=
  if effect = "EQ" then
    "equalizer=f=" ++ optStr (p.lookup "frequency") ++ ":t=q:w=1:g=" ++
      optStr (p.lookup "gain")
  else if effect = "Gain" then
    "volume=" ++ optStr (p.lookup "gain_level") ++ "dB"
  else if effect = "Reverb" then
    "aecho=1.0:0.5:" ++ optStr (p.lookup "reverb_amount") ++ ":0.5"
  else if effect = "Tempo" then
    "atempo=" ++ optStr (p.lookup "tempo_factor")
  else ""

/-- Audio metadata as returned by `process_audio_file` on success
(`src/utils.py` lines 60–75): file name, tempo estimate, duration. -/
structure AudioMetadata where
  file_name : String
  tempo : Rat
  duration : Rat

/-- The Python values `analyze_audio_and_send_to_gemini` can return:
`None`, a string, or a Gemini response object (abstracted). -/
inductive PyReturn where
  | pynone
  | pystr (s : String)
  | pyresponse
  deriving DecidableEq

/-- Python truthiness of a `PyReturn` value, as tested by the top-level
`if response:` (`src/utils.py` line 197): `None` is falsy, a string is
truthy iff non-empty, a response object is truthy. -/
def truthy : PyReturn → Bool
  | .pynone => false
  | .pystr s => !s.isEmpty
  | .pyresponse => true

/-- The function `analyze_audio_and_send_to_gemini` (`src/utils.py` lines 78–95), as a
function of the outcomes of its two external calls: `audio_metadata` is the
result of `process_audio_file` (`none` on failure) and `gemini_response` the
result of `interpret_audio_with_tools` (`none` on failure).  The prompt
strings it builds do not affect the returned value and are elided. -/
def analyze_audio_and_send_to_gemini (audio_metadata : Option AudioMetadata)
    (gemini_response : Option Unit) : PyReturn :=
  match audio_metadata with
  | some _ =>
    match gemini_response with
    | some _ => PyReturn.pyresponse
    | none => PyReturn.pystr "Error: Failed to get response from Gemini."
  | none => PyReturn.pystr "Error: Unable to process the audio file."

/-- The field at nested position `(i, j, m)` of an effect descriptor:
effect entry `i`, parameter record `j`, field `m`. -/
def fieldAt (d : Effects) (i j m : Nat) : Option (String × Rat) :=
  d[i]?.bind fun ep => ep.2[j]?.bind fun r => r[m]?

/-- The parameter record at nested position `(i, j)`. -/
def recordAt (d : Effects) (i j : Nat) : Option ParamRecord :=
  d[i]?.bind fun ep => ep.2[j]?

/-- The effect name of entry `i` of a descriptor. -/
def effectNameAt (d : Effects) (i : Nat) : Option String :=
  d[i]?.map Prod.fst

/-- The field transformation of one validator iteration: clamp the value if
the field name is in the effect's limit table, otherwise keep the field. -/
def valField (tbl : List (String × (Rat × Rat))) (kv : String × Rat) : String × Rat :=
  match tbl.lookup kv.1 with
  | some lims => (kv.1, clamp kv.2 lims.1 lims.2)
  | none => kv

/-- The record transformation of one validator iteration. -/
def valRecord (tbl : List (String × (Rat × Rat))) (pr : ParamRecord) : ParamRecord :=
  pr.map (valField tbl)

/-- The entry transformation of one validator iteration. -/
def valEntry (ep : String × List ParamRecord) : String × List ParamRecord :=
  match limitsFor ep.1 with
  | some tbl => (ep.1, ep.2.map (valRecord tbl))
  | none => ep

/-- A sample JSON decoder standing in for `json.loads`, used to exercise the
parser on concrete inputs: accepts exactly the text `{c}d}`. -/
def demoDecode (cs : List Char) : Option Nat :=
  if cs = "\x7bc\x7dd\x7d".data then some 1 else none

/-! ## Helper lemmas -/

theorem validate_eq_map (d : Effects) :
    validate_audio_effects d = d.map valEntry := rfl

theorem clamp_idem (v lo hi : Rat) : clamp (clamp v lo hi) lo hi = clamp v lo hi := by
  unfold clamp
  rcases le_total (min v hi) lo with h | h
  · rw [max_eq_left h, max_eq_left (min_le_left lo hi)]
  · rw [max_eq_right h, min_eq_left (min_le_right v hi), max_eq_right h]

theorem effectFilters_nil (e : String) : effectFilters e [] = [] := by
  unfold effectFilters
  split_ifs <;> rfl

theorem effectFilters_eq_map (e : String) (ps : List ParamRecord)
    (he : recognizedEffect e = true) :
    effectFilters e ps = ps.map (recordExpr e) := by
  have h : ((e = "EQ" ∨ e = "Gain") ∨ e = "Reverb") ∨ e = "Tempo" := by
    simpa [recognizedEffect] using he
  rw [or_assoc, or_assoc] at h
  rcases h with h | h | h | h <;> subst h <;> simp [effectFilters, recordExpr]

theorem build_ffmpeg_filters_cons (ep : String × List ParamRecord) (d : Effects) :
    build_ffmpeg_filters (ep :: d) = effectFilters ep.1 ep.2 ++ build_ffmpeg_filters d := by
  simp [build_ffmpeg_filters]

theorem lookup_mem {β : Type} (a : String) (l : List (String × β)) (b : β)
    (h : l.lookup a = some b) : (a, b) ∈ l := by
  induction l with
  | nil => simp [List.lookup] at h
  | cons kv l ih =>
      obtain ⟨k, b'⟩ := kv
      rw [List.lookup] at h
      cases hk : a == k with
      | true =>
          rw [hk] at h
          injection h with h
          subst h
          rw [show a = k from by simpa using hk]
          exact List.mem_cons_self _ _
      | false =>
          rw [hk] at h
          exact List.mem_cons_of_mem _ (ih h)

theorem limits_le (e p : String) (tbl : List (String × (Rat × Rat))) (lo hi : Rat)
    (htbl : limitsFor e = some tbl) (hp : tbl.lookup p = some (lo, hi)) :
    lo ≤ hi := by
  have h1 : (e, tbl) ∈ PARAM_LIMITS := lookup_mem e PARAM_LIMITS tbl htbl
  have h2 : (p, (lo, hi)) ∈ tbl := lookup_mem p tbl (lo, hi) hp
  have hall : ∀ pr ∈ PARAM_LIMITS, ∀ q ∈ pr.2, q.2.1 ≤ q.2.2 := by
    intro pr hpr q hq
    fin_cases hpr <;> fin_cases hq <;> norm_num [PARAM_LIMITS]
  exact hall (e, tbl) h1 (p, (lo, hi)) h2

theorem clamp_eq_ite (v lo hi : Rat) (h : lo ≤ hi) :
    clamp v lo hi = if v < lo then lo else if hi < v then hi else v := by
  unfold clamp
  split_ifs with h1 h2
  · rw [min_eq_left (le_trans h1.le h)]
    exact max_eq_left h1.le
  · rw [min_eq_right h2.le, max_eq_right h]
  · push_neg at h1 h2
    rw [min_eq_left h2, max_eq_right h1]

theorem valEntry_fst (ep : String × List ParamRecord) : (valEntry ep).1 = ep.1 := by
  unfold valEntry
  cases h : limitsFor ep.1 <;> simp

theorem valField_fst (tbl : List (String × (Rat × Rat))) (kv : String × Rat) :
    (valField tbl kv).1 = kv.1 := by
  unfold valField
  cases h : tbl.lookup kv.1 <;> simp

theorem valField_of_lookup_none (tbl : List (String × (Rat × Rat))) (kv : String × Rat)
    (h : tbl.lookup kv.1 = none) : valField tbl kv = kv := by
  unfold valField
  rw [h]

theorem valEntry_of_limits_none (ep : String × List ParamRecord)
    (h : limitsFor ep.1 = none) : valEntry ep = ep := by
  unfold valEntry
  rw [h]

theorem firstIdx_lt_length (p : Char → Bool) (cs : List Char) (i : Nat)
    (h : firstIdx p cs = some i) :
    ∃ hlt : i < cs.length, p (cs.get ⟨i, hlt⟩) = true := by
  induction cs generalizing i with
  | nil => simp [firstIdx] at h
  | cons c cs ih =>
      rw [firstIdx] at h
      cases hc : p c with
      | true =>
          rw [hc] at h
          simp only [if_true] at h
          injection h with h
          subst h
          exact ⟨Nat.succ_pos _, hc⟩
      | false =>
          rw [hc] at h
          simp only [Bool.false_eq_true, if_false] at h
          obtain ⟨j, hj, rfl⟩ := Option.map_eq_some'.mp h
          obtain ⟨hlt, hp⟩ := ih j hj
          exact ⟨Nat.succ_lt_succ hlt, hp⟩

theorem firstIdx_eq_some_of (p : Char → Bool) (cs : List Char) (i : Nat)
    (hlt : i < cs.length) (hp : p (cs.get ⟨i, hlt⟩) = true)
    (hmin : ∀ k (hk : k < cs.length), k < i → p (cs.get ⟨k, hk⟩) = false) :
    firstIdx p cs = some i := by
  induction cs generalizing i with
  | nil => simp at hlt
  | cons c cs ih =>
      cases i with
      | zero =>
          rw [firstIdx, show p c = true from hp]
          rfl
      | succ n =>
          have hc : p c = false := hmin 0 (Nat.succ_pos _) (Nat.succ_pos n)
          rw [firstIdx, hc]
          simp only [Bool.false_eq_true, if_false]
          rw [ih n (Nat.lt_of_succ_lt_succ hlt) hp
            fun k hk hkn => hmin (k + 1) (Nat.succ_lt_succ hk) (Nat.succ_lt_succ hkn)]
          rfl

theorem lastIdx_none_of (p : Char → Bool) (cs : List Char)
    (h : ∀ k (hk : k < cs.length), p (cs.get ⟨k, hk⟩) = false) :
    lastIdx p cs = none := by
  induction cs with
  | nil => rfl
  | cons c cs ih =>
      have hc : p c = false := h 0 (Nat.succ_pos _)
      rw [lastIdx, ih fun k hk => h (k + 1) (Nat.succ_lt_succ hk)]
      simp only [hc, Bool.false_eq_true, if_false]

theorem lastIdx_lt_length (p : Char → Bool) (cs : List Char) (j : Nat)
    (h : lastIdx p cs = some j) :
    ∃ hlt : j < cs.length, p (cs.get ⟨j, hlt⟩) = true := by
  induction cs generalizing j with
  | nil => simp [lastIdx] at h
  | cons c cs ih =>
      rw [lastIdx] at h
      cases hL : lastIdx p cs with
      | some n =>
          rw [hL] at h
          injection h with h
          subst h
          obtain ⟨hlt, hp⟩ := ih n hL
          exact ⟨Nat.succ_lt_succ hlt, hp⟩
      | none =>
          rw [hL] at h
          cases hc : p c with
          | true =>
              rw [hc] at h
              simp only [if_true] at h
              injection h with h
              subst h
              exact ⟨Nat.succ_pos _, hc⟩
          | false =>
              rw [hc] at h
              simp at h

theorem lastIdx_eq_some_of (p : Char → Bool) (cs : List Char) (j : Nat)
    (hlt : j < cs.length) (hp : p (cs.get ⟨j, hlt⟩) = true)
    (hmax : ∀ k (hk : k < cs.length), j < k → p (cs.get ⟨k, hk⟩) = false) :
    lastIdx p cs = some j := by
  induction cs generalizing j with
  | nil => simp at hlt
  | cons c cs ih =>
      cases j with
      | zero =>
          have hnone : lastIdx p cs = none :=
            lastIdx_none_of p cs fun k hk =>
              hmax (k + 1) (Nat.succ_lt_succ hk) (Nat.succ_pos k)
          rw [lastIdx, hnone, show p c = true from hp]
          rfl
      | succ n =>
          rw [lastIdx, ih n (Nat.lt_of_succ_lt_succ hlt) hp
            fun k hk hnk => hmax (k + 1) (Nat.succ_lt_succ hk) (Nat.succ_lt_succ hnk)]

theorem regexSpan_eq_some_of (cs : List Char) (i j : Nat)
    (hi : i < cs.length) (hj : j < cs.length) (hij : i < j)
    (hoi : cs.get ⟨i, hi⟩ = '{')
    (hfirst : ∀ k (hk : k < cs.length), k < i → cs.get ⟨k, hk⟩ ≠ '{')
    (hcj : cs.get ⟨j, hj⟩ = '}')
    (hlast : ∀ k (hk : k < cs.length), j < k → cs.get ⟨k, hk⟩ ≠ '}') :
    regexSpan cs = some ((cs.drop i).take (j + 1 - i)) := by
  unfold regexSpan
  rw [firstIdx_eq_some_of (fun c => c = '{') cs i hi (by simpa using hoi)
      fun k hk hki => by simpa using hfirst k hk hki,
    lastIdx_eq_some_of (fun c => c = '}') cs j hj (by simpa using hcj)
      fun k hk hjk => by simpa using hlast k hk hjk]
  show (if i < j then some (List.take (j + 1 - i) (List.drop i cs)) else none)
    = some (List.take (j + 1 - i) (List.drop i cs))
  rw [if_pos hij]

theorem regexSpan_eq_none_of (cs : List Char)
    (hno : ∀ i j (hi : i < cs.length) (hj : j < cs.length), i < j →
      ¬(cs.get ⟨i, hi⟩ = '{' ∧ cs.get ⟨j, hj⟩ = '}')) :
    regexSpan cs = none := by
  unfold regexSpan
  cases hf : firstIdx (fun c => c = '{') cs with
  | none => rfl
  | some i =>
      cases hl : lastIdx (fun c => c = '}') cs with
      | none => rfl
      | some j =>
          obtain ⟨hi, hpi⟩ := firstIdx_lt_length _ cs i hf
          obtain ⟨hj, hpj⟩ := lastIdx_lt_length _ cs j hl
          have hij : ¬i < j := fun hij =>
            hno i j hi hj hij ⟨by simpa using hpi, by simpa using hpj⟩
          show (if i < j then some (List.take (j + 1 - i) (List.drop i cs)) else none) = none
          rw [if_neg hij]

/-! ## Theorems for the claims -/

/-- Claim C10: the parameter validator is idempotent: validating an
already-validated descriptor returns it unchanged. -/
theorem validate_audio_effects_idempotent (d : Effects) :
    validate_audio_effects (validate_audio_effects d) = validate_audio_effects d := by
  unfold validate_audio_effects
  rw [List.map_map]
  apply List.map_congr_left
  intro ep _
  simp only [Function.comp]
  cases h : limitsFor ep.1 with
  | none => simp [h]
  | some tbl =>
      simp only [h, List.map_map]
      congr 1
      apply List.map_congr_left
      intro pr _
      simp only [Function.comp, List.map_map]
      apply List.map_congr_left
      intro kv _
      simp only [Function.comp]
      cases hk : tbl.lookup kv.1 with
      | none => simp [hk]
      | some lims => simp [hk, clamp_idem]

/-- Witness for C10: idempotence evaluated at a descriptor that clamping
actually changes. -/
theorem validate_audio_effects_idempotent_witness :
    validate_audio_effects (validate_audio_effects [("EQ", [[("gain", 20)]])])
      = validate_audio_effects [("EQ", [[("gain", 20)]])] :=
  validate_audio_effects_idempotent [("EQ", [[("gain", 20)]])]

/-- Claim C5: the descriptor `("Gain" ↦ [("gain_level" ↦ 3)])`, after validation,
produces exactly the one-expression chain `volume=3dB`, with no trailing
delimiter. -/
theorem gain_descriptor_single_expression :
    build_ffmpeg_filters (validate_audio_effects [("Gain", [[("gain_level", 3)]])])
      = ["volume=3dB"]
    ∧ combined_filters (validate_audio_effects [("Gain", [[("gain_level", 3)]])])
      = "volume=3dB" := by
  constructor <;> rfl

/-- Claim C9: a descriptor with no effect entries, or whose effect entries all
carry empty record sequences, yields the empty filter chain. -/
theorem empty_descriptor_empty_chain (d : Effects)
    (h : ∀ ep ∈ d, ep.2 = ([] : List ParamRecord)) :
    combined_filters d = "" := by
  have hb : build_ffmpeg_filters d = [] := by
    induction d with
    | nil => rfl
    | cons ep d ih =>
        rw [build_ffmpeg_filters_cons, h ep (List.mem_cons_self ep d), effectFilters_nil,
          List.nil_append]
        exact ih fun x hx => h x (List.mem_cons_of_mem _ hx)
  rw [combined_filters, hb]
  rfl

/-- Witness for C9 at a concrete descriptor with only empty record lists. -/
theorem empty_descriptor_empty_chain_witness :
    combined_filters [("EQ", []), ("Reverb", [])] = "" :=
  empty_descriptor_empty_chain [("EQ", []), ("Reverb", [])] (by decide)

/-- Claim C3: on failure of metadata extraction or of the model call,
`analyze_audio_and_send_to_gemini` returns a non-empty error string, and in
fact every value it can return is truthy under Python truthiness — so the
top level's falsy branch can never be taken, contradicting the specified
null/false-y failure propagation. -/
theorem analyze_failure_returns_truthy :
    (∀ g, analyze_audio_and_send_to_gemini none g
        = PyReturn.pystr "Error: Unable to process the audio file.")
    ∧ (∀ m, analyze_audio_and_send_to_gemini (some m) none
        = PyReturn.pystr "Error: Failed to get response from Gemini.")
    ∧ (∀ meta g, truthy (analyze_audio_and_send_to_gemini meta g) = true) := by
  refine ⟨fun g => rfl, fun m => rfl, fun meta g => ?_⟩
  cases meta <;> cases g <;> rfl

/-- Claim C4: over descriptors whose keys all lie in the recognized effect set
(the Effect Descriptor shape of the data model), the builder emits exactly
one expression per parameter record, in descriptor key order and
within-effect record order, and the chain is these expressions joined
with the delimiter `","`. -/
theorem builder_chain_order (d : Effects)
    (h : ∀ ep ∈ d, recognizedEffect ep.1 = true) :
    build_ffmpeg_filters d = d.flatMap (fun ep => ep.2.map (recordExpr ep.1))
    ∧ (build_ffmpeg_filters d).length = (d.map fun ep => ep.2.length).sum
    ∧ combined_filters d
        = String.intercalate "," (d.flatMap fun ep => ep.2.map (recordExpr ep.1)) := by
  have h1 : build_ffmpeg_filters d = d.flatMap fun ep => ep.2.map (recordExpr ep.1) := by
    induction d with
    | nil => rfl
    | cons ep d ih =>
        rw [build_ffmpeg_filters_cons, List.flatMap_cons,
          effectFilters_eq_map ep.1 ep.2 (h ep (List.mem_cons_self ep d)),
          ih fun x hx => h x (List.mem_cons_of_mem _ hx)]
  refine ⟨h1, ?_, ?_⟩
  · rw [h1, List.length_flatMap]
    congr 1
    apply List.map_congr_left
    intro ep _
    simp
  · rw [combined_filters, h1]

/-- Witness for C4 at a two-effect, three-record descriptor. -/
theorem builder_chain_order_witness :
    combined_filters
        [("EQ", [[("frequency", 100), ("gain", -12)], [("frequency", 2500), ("gain", 6)]]),
         ("Gain", [[("gain_level", 3)]])]
      = "equalizer=f=100:t=q:w=1:g=-12,equalizer=f=2500:t=q:w=1:g=6,volume=3dB"
    ∧ (build_ffmpeg_filters
        [("EQ", [[("frequency", 100), ("gain", -12)], [("frequency", 2500), ("gain", 6)]]),
         ("Gain", [[("gain_level", 3)]])]).length = 3 := by
  refine ⟨?_, ?_⟩
  · rw [(builder_chain_order _ (by decide)).2.2]
    rfl
  · rw [(builder_chain_order _ (by decide)).2.1]
    rfl

/-- Claim C8: an effect name outside `{EQ, Gain, Reverb, Tempo}` contributes no
filter expression, and the chain equals the chain of the descriptor with
every entry under that name removed. -/
theorem builder_skips_unrecognized (d : Effects) (k : String)
    (hk : recognizedEffect k = false) :
    (∀ ps, effectFilters k ps = [])
    ∧ combined_filters d = combined_filters (d.filter fun ep => ep.1 != k) := by
  have hcf : ∀ ps, effectFilters k ps = [] := by
    intro ps
    unfold effectFilters
    split_ifs with h1 h2 h3 h4
    · subst h1; simp [recognizedEffect] at hk
    · subst h2; simp [recognizedEffect] at hk
    · subst h3; simp [recognizedEffect] at hk
    · subst h4; simp [recognizedEffect] at hk
    · rfl
  refine ⟨hcf, ?_⟩
  unfold combined_filters
  congr 1
  induction d with
  | nil => rfl
  | cons ep d ih =>
      rw [build_ffmpeg_filters_cons, List.filter_cons]
      by_cases he : ep.1 = k
      · simp only [he, bne_self_eq_false, Bool.false_eq_true, if_false, hcf,
          List.nil_append]
        exact ih
      · have hb : (ep.1 != k) = true := bne_iff_ne.mpr he
        simp only [hb, if_true, build_ffmpeg_filters_cons]
        rw [ih]

/-- Witness for C8 at the descriptor with the unrecognized key
`"Distortion"`. -/
theorem builder_skips_unrecognized_witness :
    effectFilters "Distortion" [[("amount", 5)]] = []
    ∧ combined_filters [("Distortion", [[("amount", 5)]]), ("Gain", [[("gain_level", 3)]])]
      = combined_filters [("Gain", [[("gain_level", 3)]])] := by
  have h := builder_skips_unrecognized
    [("Distortion", [[("amount", 5)]]), ("Gain", [[("gain_level", 3)]])]
    "Distortion" (by decide)
  refine ⟨h.1 _, ?_⟩
  rw [h.2]
  rfl

/-- Claim C6: for every EQ parameter record carrying a frequency and a gain, the
built equalizer expression is exactly the fixed template with the two
numeric values interpolated verbatim (constants `t=q`, `w=1`), and both
rendered values occur verbatim inside it. -/
theorem eq_expression_verbatim (p : ParamRecord) (f g : Rat)
    (hf : p.lookup "frequency" = some f) (hg : p.lookup "gain" = some g) :
    effectFilters "EQ" [p]
      = ["equalizer=f=" ++ numStr f ++ ":t=q:w=1:g=" ++ numStr g]
    ∧ (numStr f).data <:+: ("equalizer=f=" ++ numStr f ++ ":t=q:w=1:g=" ++ numStr g).data
    ∧ (numStr g).data <:+:
        ("equalizer=f=" ++ numStr f ++ ":t=q:w=1:g=" ++ numStr g).data := by
  refine ⟨?_, ?_, ?_⟩
  · unfold effectFilters
    rw [if_pos rfl]
    simp [hf, hg, optStr]
  · exact ⟨"equalizer=f=".data, (":t=q:w=1:g=" ++ numStr g).data,
      by simp [String.data_append]⟩
  · exact ⟨("equalizer=f=" ++ numStr f ++ ":t=q:w=1:g=").data, [],
      by simp [String.data_append]⟩

/-- Witness for C6 at the record `frequency = 100`, `gain = -12`. -/
theorem eq_expression_verbatim_witness :
    effectFilters "EQ" [[("frequency", 100), ("gain", -12)]]
      = ["equalizer=f=100:t=q:w=1:g=-12"]
    ∧ "100".data <:+: "equalizer=f=100:t=q:w=1:g=-12".data
    ∧ "-12".data <:+: "equalizer=f=100:t=q:w=1:g=-12".data := by
  have h := eq_expression_verbatim [("frequency", 100), ("gain", -12)] 100 (-12)
    (by decide) (by decide)
  exact ⟨by rw [h.1]; rfl, by decide, by decide⟩

/-- Claim C1: for every descriptor, at every field whose effect name and parameter
name are recognized by the limit table, validation replaces the value by its
clamp to the table's range, which is the nearest range boundary for values
outside the closed range and the value itself for values inside it. -/
theorem validator_clamps_recognized (d : Effects) (i j m : Nat) (e p : String)
    (v lo hi : Rat) (tbl : List (String × (Rat × Rat)))
    (hname : effectNameAt d i = some e)
    (htbl : limitsFor e = some tbl)
    (hfield : fieldAt d i j m = some (p, v))
    (hp : tbl.lookup p = some (lo, hi)) :
    fieldAt (validate_audio_effects d) i j m = some (p, clamp v lo hi)
    ∧ clamp v lo hi = if v < lo then lo else if hi < v then hi else v := by
  refine ⟨?_, clamp_eq_ite v lo hi (limits_le e p tbl lo hi htbl hp)⟩
  unfold effectNameAt at hname
  obtain ⟨ep, hep, hep1⟩ := Option.map_eq_some'.mp hname
  unfold fieldAt at hfield
  rw [hep] at hfield
  simp only [Option.some_bind] at hfield
  cases hj : ep.2[j]? with
  | none => rw [hj] at hfield; simp at hfield
  | some r =>
      rw [hj] at hfield
      simp only [Option.some_bind] at hfield
      unfold fieldAt
      rw [validate_eq_map, List.getElem?_map, hep]
      simp only [Option.map_some', Option.some_bind]
      unfold valEntry
      rw [hep1, htbl]
      simp only [List.getElem?_map, hj, Option.map_some', Option.some_bind]
      unfold valRecord
      rw [List.getElem?_map, hfield]
      simp only [Option.map_some', valField, hp]

/-- Witness for C1: EQ gain 20 clamps to 12, EQ gain -50 clamps to -12, and
EQ frequency 100 is unchanged. -/
theorem validator_clamps_recognized_witness :
    fieldAt (validate_audio_effects [("EQ", [[("gain", 20)]])]) 0 0 0 = some ("gain", 12)
    ∧ fieldAt (validate_audio_effects [("EQ", [[("gain", -50)]])]) 0 0 0
      = some ("gain", -12)
    ∧ fieldAt (validate_audio_effects [("EQ", [[("frequency", 100)]])]) 0 0 0
      = some ("frequency", 100) := by
  refine ⟨?_, ?_, ?_⟩
  · have h := validator_clamps_recognized [("EQ", [[("gain", 20)]])] 0 0 0 "EQ" "gain"
      20 (-12) 12 [("frequency", (20, 20000)), ("gain", (-12, 12))]
      (by decide) (by decide) (by decide) (by decide)
    rw [h.1]
    decide
  · have h := validator_clamps_recognized [("EQ", [[("gain", -50)]])] 0 0 0 "EQ" "gain"
      (-50) (-12) 12 [("frequency", (20, 20000)), ("gain", (-12, 12))]
      (by decide) (by decide) (by decide) (by decide)
    rw [h.1]
    decide
  · have h := validator_clamps_recognized [("EQ", [[("frequency", 100)]])] 0 0 0 "EQ"
      "frequency" 100 20 20000 [("frequency", (20, 20000)), ("gain", (-12, 12))]
      (by decide) (by decide) (by decide) (by decide)
    rw [h.1]
    decide

/-- Claim C7: validation leaves untouched every entry whose effect name is not in
the limit table, every field whose parameter name is not in its (recognized)
effect's table, and every record none of whose fields match; and it modifies
nothing outside the matched fields: effect names, field names and the
nesting structure are preserved. -/
theorem validator_pass_through_unrecognized (d : Effects) :
    (∀ i e, effectNameAt d i = some e → limitsFor e = none →
        (validate_audio_effects d)[i]? = d[i]?)
    ∧ (∀ i j m e p v tbl, effectNameAt d i = some e → limitsFor e = some tbl →
        fieldAt d i j m = some (p, v) → tbl.lookup p = none →
        fieldAt (validate_audio_effects d) i j m = some (p, v))
    ∧ (∀ i j r e tbl, effectNameAt d i = some e → limitsFor e = some tbl →
        recordAt d i j = some r → (∀ kv ∈ r, tbl.lookup kv.1 = none) →
        recordAt (validate_audio_effects d) i j = some r)
    ∧ ((validate_audio_effects d).map Prod.fst = d.map Prod.fst
        ∧ ∀ i j m, (fieldAt (validate_audio_effects d) i j m).map Prod.fst
            = (fieldAt d i j m).map Prod.fst) := by
  refine ⟨?_, ?_, ?_, ?_, ?_⟩
  · intro i e hname hnone
    unfold effectNameAt at hname
    obtain ⟨ep, hep, hep1⟩ := Option.map_eq_some'.mp hname
    rw [validate_eq_map, List.getElem?_map, hep, Option.map_some',
      valEntry_of_limits_none ep (hep1 ▸ hnone)]
  · intro i j m e p v tbl hname htbl hfield hp
    unfold effectNameAt at hname
    obtain ⟨ep, hep, hep1⟩ := Option.map_eq_some'.mp hname
    unfold fieldAt at hfield
    rw [hep] at hfield
    simp only [Option.some_bind] at hfield
    cases hj : ep.2[j]? with
    | none => rw [hj] at hfield; simp at hfield
    | some r =>
        rw [hj] at hfield
        simp only [Option.some_bind] at hfield
        unfold fieldAt
        rw [validate_eq_map, List.getElem?_map, hep]
        simp only [Option.map_some', Option.some_bind]
        unfold valEntry
        rw [hep1, htbl]
        simp only [List.getElem?_map, hj, Option.map_some', Option.some_bind]
        unfold valRecord
        rw [List.getElem?_map, hfield]
        simp only [Option.map_some', valField, hp]
  · intro i j r e tbl hname htbl hrec hz
    unfold effectNameAt at hname
    obtain ⟨ep, hep, hep1⟩ := Option.map_eq_some'.mp hname
    unfold recordAt at hrec
    rw [hep] at hrec
    simp only [Option.some_bind] at hrec
    unfold recordAt
    rw [validate_eq_map, List.getElem?_map, hep]
    simp only [Option.map_some', Option.some_bind]
    unfold valEntry
    rw [hep1, htbl]
    simp only [List.getElem?_map, hrec, Option.map_some']
    unfold valRecord
    rw [List.map_congr_left fun kv hkv => valField_of_lookup_none tbl kv (hz kv hkv)]
    simp
  · rw [validate_eq_map, List.map_map]
    apply List.map_congr_left
    intro ep _
    exact valEntry_fst ep
  · intro i j m
    rw [validate_eq_map]
    unfold fieldAt
    rw [List.getElem?_map]
    cases hep : d[i]? with
    | none => simp
    | some ep =>
        simp only [Option.map_some', Option.some_bind]
        unfold valEntry
        cases hL : limitsFor ep.1 with
        | none => rfl
        | some tbl =>
            simp only [List.getElem?_map]
            cases hr : ep.2[j]? with
            | none => simp
            | some r =>
                simp only [Option.map_some', Option.some_bind]
                unfold valRecord
                rw [List.getElem?_map]
                cases hm : r[m]? with
                | none => simp
                | some kv => simp [valField_fst]

/-- Witness for C7: an unrecognized effect name, an unrecognized parameter
of a recognized effect, and a record with zero matching fields all pass
through validation unchanged. -/
theorem validator_pass_through_unrecognized_witness :
    (validate_audio_effects [("Distortion", [[("amount", 999)]])])[0]?
      = some ("Distortion", [[("amount", 999)]])
    ∧ fieldAt (validate_audio_effects [("EQ", [[("mystery", 77)]])]) 0 0 0
      = some ("mystery", 77)
    ∧ recordAt (validate_audio_effects [("EQ", [[("mystery", 77), ("other", 1)]])]) 0 0
      = some [("mystery", 77), ("other", 1)] := by
  refine ⟨?_, ?_, ?_⟩
  · have h := (validator_pass_through_unrecognized [("Distortion", [[("amount", 999)]])]).1
      0 "Distortion" (by decide) (by decide)
    rw [h]
    rfl
  · exact (validator_pass_through_unrecognized [("EQ", [[("mystery", 77)]])]).2.1
      0 0 0 "EQ" "mystery" 77 [("frequency", (20, 20000)), ("gain", (-12, 12))]
      (by decide) (by decide) (by decide) (by decide)
  · exact (validator_pass_through_unrecognized
        [("EQ", [[("mystery", 77), ("other", 1)]])]).2.2.1
      0 0 [("mystery", 77), ("other", 1)] "EQ"
      [("frequency", (20, 20000)), ("gain", (-12, 12))]
      (by decide) (by decide) (by decide) (by decide)

/-- Claim C2: the parser selects exactly the substring running from the first
opening brace to the last closing brace and hands it to the JSON decoder:
when such a span exists the result is whatever decoding the span yields
(the decoded object for valid JSON, the null sentinel otherwise), and when
no brace-delimited span exists the result is the null sentinel. -/
theorem parse_gemini_response_span (α : Type) (dec : List Char → Option α)
    (cs : List Char) :
    (∀ i j (hi : i < cs.length) (hj : j < cs.length), i < j →
        cs.get ⟨i, hi⟩ = '{' →
        (∀ k (hk : k < cs.length), k < i → cs.get ⟨k, hk⟩ ≠ '{') →
        cs.get ⟨j, hj⟩ = '}' →
        (∀ k (hk : k < cs.length), j < k → cs.get ⟨k, hk⟩ ≠ '}') →
        parse_gemini_response dec cs = dec ((cs.drop i).take (j + 1 - i)))
    ∧ ((∀ i j (hi : i < cs.length) (hj : j < cs.length), i < j →
          ¬(cs.get ⟨i, hi⟩ = '{' ∧ cs.get ⟨j, hj⟩ = '}')) →
        parse_gemini_response dec cs = none) := by
  constructor
  · intro i j hi hj hij hoi hfirst hcj hlast
    unfold parse_gemini_response
    rw [regexSpan_eq_some_of cs i j hi hj hij hoi hfirst hcj hlast]
  · intro hno
    unfold parse_gemini_response
    rw [regexSpan_eq_none_of cs hno]

/-- Witness for C2: on `ab{c}d}` the parser decodes exactly the span
`{c}d}` (first `{` to last `}`), and on brace-free text it returns the
null sentinel. -/
theorem parse_gemini_response_span_witness :
    parse_gemini_response demoDecode "ab\x7bc\x7dd\x7d".data = some 1
    ∧ parse_gemini_response demoDecode "no braces here".data = none := by
  constructor
  · rw [(parse_gemini_response_span Nat demoDecode "ab\x7bc\x7dd\x7d".data).1 2 6
      (by decide) (by decide) (by decide) (by decide) (by decide) (by decide) (by decide)]
    decide
  · have hd : ∀ i (hi : i < "no braces here".data.length),
        "no braces here".data.get ⟨i, hi⟩ ≠ '{' := by decide
    rw [(parse_gemini_response_span Nat demoDecode "no braces here".data).2
      fun i j hi hj hij hc => hd i hi hc.1]

end GenMusicAI
